import Mathlib

set_option maxHeartbeats 1000000

/-!
Shallow embedding of the go-req HTTP client (github.com/nordborn/go-req).

Go strings and byte slices are modelled as lists of characters (`GoStr`).
The repository contains several historical generations of the same files;
where they differ the generations are embedded separately
(`ReqV1` follows `req.go`/the `Transport` generation, `ReqV2` follows the
`Attempts`/`Form` generation).  The Go standard library
(`net/url` parsing and resolution, `net/http` request construction and
dispatch) is an external collaborator and is modelled as an explicit
environment (`Env`) of oracle functions.
-/

abbrev GoStr := List Char

def str (s : String) : GoStr := s.toList

/-- Model of a Go prefix test: `goIsPre p s` is true when `p` is a prefix of `s`. -/
def goIsPre : GoStr → GoStr → Bool
  | [], _ => true
  | _ :: _, [] => false
  | a :: p, b :: s => if a = b then goIsPre p s else false

/-- Model of `strings.Contains(s, sub)` / `bytes.Contains(s, sub)`. -/
def goContains (s sub : GoStr) : Bool :=
  if goIsPre sub s then true
  else
    match s with
    | [] => false
    | _ :: t => goContains t sub

/-- Number of start positions of `s` at which `sub` occurs (spec-side counting
used to state "the URL appears exactly once"). -/
def countOccur (s sub : GoStr) : Nat :=
  (if goIsPre sub s then 1 else 0) +
    match s with
    | [] => 0
    | _ :: t => countOccur t sub

/-! ## `net/url.QueryEscape`

`Vals.URLEncode` percent-encodes keys and values with `url.QueryEscape`.
That standard-library function is modelled concretely from its documented
behaviour: alphanumerics and `-_.~` are kept, a space becomes `+`, and every
other byte of the UTF-8 encoding becomes `%XX` with uppercase hex digits. -/

def isUnreservedChar (c : Char) : Bool :=
  c.isAlphanum || c = '-' || c = '_' || c = '.' || c = '~'

def hexDigitChar (n : Nat) : Char :=
  (str "0123456789ABCDEF").getD (n % 16) '0'

def utf8Bytes (n : Nat) : List Nat :=
  if n < 0x80 then [n]
  else if n < 0x800 then [0xC0 + n / 0x40, 0x80 + n % 0x40]
  else if n < 0x10000 then
    [0xE0 + n / 0x1000, 0x80 + (n / 0x40) % 0x40, 0x80 + n % 0x40]
  else
    [0xF0 + n / 0x40000, 0x80 + (n / 0x1000) % 0x40, 0x80 + (n / 0x40) % 0x40,
      0x80 + n % 0x40]

def escChar (c : Char) : GoStr :=
  if isUnreservedChar c then [c]
  else if c = ' ' then ['+']
  else (utf8Bytes c.toNat).flatMap fun b => ['%', hexDigitChar (b / 16), hexDigitChar b]

def queryEscape (s : GoStr) : GoStr := s.flatMap escChar
/-! ## `Vals` (vals.go, current generation with `hasSeqSig`) -/

/-- `val` represents a single name:value pair (vals.go). -/
structure val where
  Name : GoStr
  Value : GoStr
deriving DecidableEq

/-- `Vals` is a slice of `val` (vals.go). -/
abbrev Vals := List val

/-- `hasSeqSig` detects `[]` and `{}` (vals.go):
`(strings.HasPrefix(s, "{") && strings.HasSuffix(s, "}")) ||
 (strings.HasPrefix(s, "[") && strings.HasSuffix(s, "]"))`. -/
def hasSeqSig (s : GoStr) : Bool :=
  (goIsPre (str "\x7b") s && goIsPre (str "\x7d").reverse s.reverse) ||
    (goIsPre (str "[") s && goIsPre (str "]").reverse s.reverse)

/-- One `key:value` item of `Vals.JSON`:
`"%s":%s` when the value has a sequence signature, `"%v":"%v"` otherwise. -/
def jsonItem (v : val) : GoStr :=
  if hasSeqSig v.Value then
    str "\"" ++ v.Name ++ str "\":" ++ v.Value
  else
    str "\"" ++ v.Name ++ str "\":\"" ++ v.Value ++ str "\""

/-- `Vals.JSON` (vals.go): builds `{` + comma-separated items + `}`.
The Go loop appends a comma before every item with index `i > 0`, which is
every item after the first. -/
def Vals.JSON (vals : Vals) : GoStr :=
  (match vals with
    | [] => str "\x7b"
    | v :: rest => rest.foldl (fun s w => s ++ str "," ++ jsonItem w) (str "\x7b" ++ jsonItem v))
    ++ str "\x7d"

/-- One `key=value` segment of `Vals.URLEncode`:
`url.QueryEscape(param.Name) + "=" + url.QueryEscape(param.Value)`. -/
def encSeg (p : val) : GoStr := queryEscape p.Name ++ str "=" ++ queryEscape p.Value

/-- `Vals.URLEncode` (vals.go): the Go loop starts the accumulator with the
first segment (`i == 0`) and appends `"&" + enc` for every later segment. -/
def Vals.URLEncode (vals : Vals) : GoStr :=
  match vals with
  | [] => []
  | p :: rest => rest.foldl (fun acc q => acc ++ str "&" ++ encSeg q) (encSeg p)

/-! ## Retry-policy predicates (helpers generation, `part_001`) -/

/-- `shouldRetryOnStatusCode` (Go): scans the `{from, to}` pairs in order and
returns true on the first pair with `from <= statusCode <= to`. -/
def shouldRetryOnStatusCode (statusCode : Int) (retryOnCodes : List (Int × Int)) : Bool :=
  match retryOnCodes with
  | [] => false
  | p :: rest =>
    if p.1 ≤ statusCode ∧ statusCode ≤ p.2 then true
    else shouldRetryOnStatusCode statusCode rest

/-- `shouldRetryOnTextMarker` (Go): true when `bytes.Contains(content, marker)`
for some marker in the list. -/
def shouldRetryOnTextMarker (content : GoStr) (repeatOnTextMarkers : List GoStr) : Bool :=
  match repeatOnTextMarkers with
  | [] => false
  | m :: rest =>
    if goContains content m then true
    else shouldRetryOnTextMarker content rest

/-! ## `Resp` (response wrapper) -/

/-- `Resp` represents the HTTP response: `Content` is the body byte slice
(`none` models a nil slice), `RespRaw` the underlying raw response (only its
status code is observable here, `none` models a nil pointer), and `text` the
private cached text. -/
structure Resp where
  Content : Option GoStr
  RespRaw : Option Int
  text : GoStr
deriving DecidableEq

/-- `Resp.Text` (Go): caches `string(resp.Content)` in `resp.text` when
`resp.text == "" && resp.Content != nil`, then returns `resp.text`.
The result is the returned string, the updated receiver, and a flag recording
whether the decoding assignment ran on this call. -/
def Resp.Text (resp : Resp) : GoStr × Resp × Bool :=
  if resp.text = [] ∧ resp.Content ≠ none then
    let t := resp.Content.getD []
    (t, { resp with text := t }, true)
  else
    (resp.text, resp, false)

/-! ## The `Send` orchestration

Two generations of `Send` live in the repository.  `ReqV1` embeds the
generation of `req.go`/`part_003` (`RetryTimes`, `Data`, proxy-parse failure
logged and ignored); `ReqV2` embeds the generation of `part_002`
(`Attempts`, `Form`, proxy-parse failure returned from `buildReqRaw`).
Middleware callbacks are modelled as functions on the mutable request
fields; the attempt budget and the middleware list themselves are treated
as fixed for the duration of one `Send`. -/

/-- A materialized raw request (`*http.Request`): the data `http.NewRequest`,
`setCookies` and `setHeaders` install. -/
structure ReqRaw where
  method : GoStr
  url : GoStr
  body : GoStr
  headers : Vals
  cookies : List (GoStr × GoStr)
deriving DecidableEq

/-- Outcome of one dispatched attempt: a `client.Do` error, a body-read error
(with the partially read content), or a successful read of status code and
body bytes. -/
inductive DoOutcome where
  | doErr (errStr : GoStr)
  | readErr (pc : GoStr) (errStr : GoStr) (statusCode : Int)
  | ok (statusCode : Int) (content : GoStr)
deriving DecidableEq

/-- External collaborators of `Send`: `net/url` parsing of a proxy URL,
`buildFullURL`'s URL parsing and reference resolution, raw request
construction (`http.NewRequest`), and the per-attempt network dispatch. -/
structure Env where
  parseProxy : GoStr → Except GoStr Unit
  buildFullURL : GoStr → GoStr → Option Vals → Except GoStr GoStr
  newRequest : GoStr → GoStr → GoStr → Except GoStr Unit
  dispatch : Nat → Option ReqRaw → DoOutcome

/-- `%v` rendering of a Go int. -/
def showInt (i : Int) : GoStr := (toString i).toList

/-- Failure reason recorded on a status-code retry (`fmt.Sprintf` in `Send`). -/
def reasonStatus (status : Int) (content : GoStr) : GoStr :=
  str "finally got unwanted status code '" ++ showInt status ++
    str "' and content '" ++ content ++ str "'"

/-- Failure reason recorded on a text-marker retry (`fmt.Sprintf` in `Send`). -/
def reasonMarker (status : Int) (content : GoStr) : GoStr :=
  str "finally got unwanted text marker in resp with status code '" ++ showInt status ++
    str "' and content '" ++ content ++ str "'"

namespace ReqV1

/-- The mutable fields of `Req` (req.go) that middleware callbacks may rewrite
between attempts. -/
structure MutReq where
  Method : GoStr
  URL : GoStr
  Path : GoStr
  Params : Option Vals
  Headers : Vals
  ProxyURL : GoStr
  Data : Option Vals
  Body : GoStr
  RetryOnTextMarkers : List GoStr
  RetryOnStatusCodes : List (Int × Int)
  RetryDelayMillis : Int
  Timeout : Int
deriving DecidableEq

/-- A `Req` as it enters `Send`: the public fields plus the private `client`
and `reqRaw` fields (both `none` on a request fresh from `New`). -/
structure Init where
  flds : MutReq
  RetryTimes : Int
  mids : List (MutReq → MutReq)
  client0 : Option Unit
  reqRaw0 : Option ReqRaw

/-- `New` (req.go): `Req` with default arguments (`Timeout` in nanoseconds,
`10 * time.Second`). -/
def New (url : GoStr) : Init :=
  { flds :=
      { Method := str "GET"
        URL := url
        Path := []
        Params := none
        Headers := []
        ProxyURL := []
        Data := none
        Body := []
        RetryOnTextMarkers := [str "error", str "Error"]
        RetryOnStatusCodes := [(400, 600)]
        RetryDelayMillis := 1
        Timeout := 10 * 1000000000 }
    RetryTimes := 3
    mids := []
    client0 := none
    reqRaw0 := none }

/-- Mutable state of one `Send` run: the request fields, the private
`client`/`reqRaw` fields, the loop-carried locals (`respRaw`, `content`,
`reason`, `fullURL`), and observability logs of which attempts ran, which
attempts invoked `build`, and which raw request each dispatch used. -/
structure St where
  flds : MutReq
  client : Option Unit
  reqRaw : Option ReqRaw
  respRaw : Option Int
  content : Option GoStr
  reason : GoStr
  fullURL : GoStr
  builds : List Nat
  attemptsRun : List Nat
  dispatches : List (Nat × Option ReqRaw)

/-- The `build` closure of `Send` (req.go).  A proxy URL that fails to parse
is only logged (`golog.Errorf`) and otherwise ignored, so it has no observable
effect here; the client is installed before the full URL is built, and a
failing `buildFullURL` or `http.NewRequest` returns the wrapped error. -/
def build (env : Env) (st : St) : St × Option GoStr :=
  let st := { st with client := some () }
  match env.buildFullURL st.flds.URL st.flds.Path st.flds.Params with
  | .error e => ({ st with fullURL := [] }, some e)
  | .ok u =>
    let st := { st with fullURL := u }
    let reqBody :=
      match st.flds.Data with
      | some d => Vals.URLEncode d
      | none => st.flds.Body
    match env.newRequest st.flds.Method u reqBody with
    | .error e => ({ st with reqRaw := none }, some e)
    | .ok _ =>
      ({ st with reqRaw := some { method := st.flds.Method, url := u, body := reqBody,
                                  headers := st.flds.Headers, cookies := [] } }, none)

/-- The raw request a successful run of `build` would install for the given
fields (`none` when URL building or request construction fails). -/
def materialize (env : Env) (flds : MutReq) : Option ReqRaw :=
  match env.buildFullURL flds.URL flds.Path flds.Params with
  | .error _ => none
  | .ok u =>
    let reqBody :=
      match flds.Data with
      | some d => Vals.URLEncode d
      | none => flds.Body
    match env.newRequest flds.Method u reqBody with
    | .error _ => none
    | .ok _ => some { method := flds.Method, url := u, body := reqBody,
                      headers := flds.Headers, cookies := [] }

/-- How the attempt loop was left. -/
inductive LoopExit where
  | exhausted
  | success
  | buildFail (e : GoStr)
deriving DecidableEq

/-- One iteration of the attempt loop of `Send` (req.go): run the middleware,
rebuild when `r.client == nil || len(r.Middleware) > 0`, dispatch, classify.
Returns the updated state and `some` exit when the loop is left inside this
iteration (`none` marks a retry: `delay` then continue). -/
def stepOne (env : Env) (mids : List (MutReq → MutReq)) (attempt : Nat) (st : St) :
    St × Option LoopExit :=
  let st := { st with attemptsRun := st.attemptsRun ++ [attempt],
                      flds := mids.foldl (fun f m => m f) st.flds }
  let bres :=
    if st.client = none ∨ mids.length ≠ 0 then
      let b := build env st
      ({ b.1 with builds := b.1.builds ++ [attempt] }, b.2)
    else (st, none)
  match bres with
  | (st, some e) => (st, some (.buildFail e))
  | (st, none) =>
    let rr := st.reqRaw
    let st := { st with dispatches := st.dispatches ++ [(attempt, rr)] }
    match env.dispatch attempt rr with
    | .doErr eS => ({ st with respRaw := none, reason := eS }, none)
    | .readErr pc eS status =>
      ({ st with respRaw := some status, content := some pc, reason := eS }, none)
    | .ok status body =>
      let st := { st with respRaw := some status, content := some body }
      if shouldRetryOnStatusCode status st.flds.RetryOnStatusCodes then
        ({ st with reason := reasonStatus status body }, none)
      else if shouldRetryOnTextMarker body st.flds.RetryOnTextMarkers then
        ({ st with reason := reasonMarker status body }, none)
      else (st, some .success)

/-- The attempt loop `for attempt = 1; attempt <= r.RetryTimes; attempt++`,
by recursion on the remaining attempt budget. -/
def loop (env : Env) (mids : List (MutReq → MutReq)) :
    Nat → Nat → St → St × LoopExit
  | _, 0, st => (st, .exhausted)
  | attempt, fuel+1, st =>
    match stepOne env mids attempt st with
    | (st', some ex) => (st', ex)
    | (st', none) => loop env mids (attempt+1) fuel st'

/-- The error returned by `Send` (req.go): either the wrapped build error
(`return nil, err`) or the final `errow.New("FAILED: ", msg)`. -/
inductive SendError where
  | buildErr (e : GoStr)
  | failed (msg : GoStr)
deriving DecidableEq

/-- Result of a `Send` run, with the observability logs of the state. -/
structure SendResult where
  resp : Option Resp
  error : Option SendError
  builds : List Nat
  attemptsRun : List Nat
  dispatches : List (Nat × Option ReqRaw)
  methodFinal : GoStr
  fullURLFinal : GoStr
  reasonFinal : GoStr
deriving DecidableEq

/-- The tail of `Send` after the attempt loop (req.go): build `myResp` from
the last `content`/`respRaw`; on a build failure hand back `nil, err`; when
the loop exhausted the budget compose the failure message, avoiding a
duplicated URL. -/
def wrapUp (st : St) (ex : LoopExit) : SendResult :=
  let base : SendResult :=
    { resp := some { Content := st.content, RespRaw := st.respRaw, text := [] }
      error := none
      builds := st.builds
      attemptsRun := st.attemptsRun
      dispatches := st.dispatches
      methodFinal := st.flds.Method
      fullURLFinal := st.fullURL
      reasonFinal := st.reason }
  match ex with
  | .buildFail e => { base with resp := none, error := some (.buildErr e) }
  | .success => base
  | .exhausted =>
    let msg :=
      if goContains st.reason st.fullURL then st.reason
      else st.flds.Method ++ str " " ++ st.fullURL ++ str ": " ++ st.reason
    { base with error := some (.failed msg) }

/-- The state a `Send` run starts from. -/
def initialSt (init : Init) : St :=
  { flds := init.flds, client := init.client0, reqRaw := init.reqRaw0,
    respRaw := none, content := none, reason := [], fullURL := [],
    builds := [], attemptsRun := [], dispatches := [] }

/-- `Send` (req.go): run the attempt loop over the budget `RetryTimes`, then
wrap up. -/
def Send (init : Init) (env : Env) : SendResult :=
  let r := loop env init.mids 1 init.RetryTimes.toNat (initialSt init)
  wrapUp r.1 r.2

end ReqV1

namespace ReqV2

/-- The mutable fields of `Req` (part_002 generation: `Form` instead of
`Data`, plus `Cookies`). -/
structure MutReq where
  Method : GoStr
  URL : GoStr
  Path : GoStr
  Params : Option Vals
  Headers : Vals
  ProxyURL : GoStr
  Form : Option Vals
  Body : GoStr
  RetryOnTextMarkers : List GoStr
  RetryOnStatusCodes : List (Int × Int)
  RetryDelayMillis : Int
  Timeout : Int
  Cookies : List (GoStr × GoStr)
deriving DecidableEq

/-- A `Req` of the part_002 generation as it enters `Send`.  The shared
`*http.Client` is an external handle whose only observable data here is the
private `reqRaw` field driving the rebuild condition. -/
structure Init where
  flds : MutReq
  Attempts : Int
  mids : List (MutReq → MutReq)
  reqRaw0 : Option ReqRaw

/-- `New` (part_002): `Req` with default arguments (`Attempts: 1`,
`Timeout: 30 * time.Second`, `Client: http.DefaultClient`). -/
def New (url : GoStr) : Init :=
  { flds :=
      { Method := str "GET"
        URL := url
        Path := []
        Params := none
        Headers := []
        ProxyURL := []
        Form := none
        Body := []
        RetryOnTextMarkers := [str "error", str "Error"]
        RetryOnStatusCodes := [(400, 600)]
        RetryDelayMillis := 1
        Timeout := 30 * 1000000000
        Cookies := [] }
    Attempts := 1
    mids := []
    reqRaw0 := none }

/-- Mutable state of one part_002 `Send` run.  `errVar` is the `err` local of
the enclosing `Send`: the value `return nil, err` hands back when
`buildReqRaw()` reports a failure. -/
structure St where
  flds : MutReq
  reqRaw : Option ReqRaw
  respRaw : Option Int
  content : Option GoStr
  reason : GoStr
  fullURL : GoStr
  errVar : Option GoStr
  builds : List Nat
  attemptsRun : List Nat
  dispatches : List (Nat × Option ReqRaw)

/-- Tail of `buildReqRaw` after the proxy block (part_002).  The assignments
`fullURL, err = buildFullURL(...)` and `r.reqRaw, err = http.NewRequest(...)`
write the outer `err` (`errVar`), nil on their success paths. -/
def buildRest (env : Env) (st : St) : St × Option GoStr :=
  match env.buildFullURL st.flds.URL st.flds.Path st.flds.Params with
  | .error e => ({ st with fullURL := [], errVar := some e }, some (str "bad full url: " ++ e))
  | .ok u =>
    let st := { st with fullURL := u, errVar := none }
    let reqBody :=
      match st.flds.Form with
      | some d => Vals.URLEncode d
      | none => st.flds.Body
    match env.newRequest st.flds.Method u reqBody with
    | .error e => ({ st with reqRaw := none, errVar := some e }, some (str "bad req raw: " ++ e))
    | .ok _ =>
      ({ st with errVar := none,
                 reqRaw := some { method := st.flds.Method, url := u, body := reqBody,
                                  headers := st.flds.Headers,
                                  cookies := st.flds.Cookies } }, none)

/-- The `buildReqRaw` closure (part_002).  On a proxy-parse failure the
closure returns the wrapped error, but `proxyURL, err := url.Parse(...)`
declares a fresh local `err`, so the outer `errVar` is not written on that
path. -/
def buildReqRaw (env : Env) (st : St) : St × Option GoStr :=
  if st.flds.ProxyURL ≠ [] then
    match env.parseProxy st.flds.ProxyURL with
    | .error e => (st, some (str "bad proxy url: " ++ e))
    | .ok _ => buildRest env st
  else buildRest env st

/-- How the part_002 attempt loop was left; a build failure hands back the
outer `err` (`return nil, err` after `if buildReqRaw() != nil`). -/
inductive LoopExit where
  | exhausted
  | success
  | buildFail (errVar : Option GoStr)
deriving DecidableEq

/-- One iteration of the attempt loop of `Send` (part_002): middleware,
rebuild when `r.reqRaw == nil || len(r.Middleware) > 0`, dispatch, classify.
`respRaw, err = r.Client.Do(...)` and `content, err = io.ReadAll(...)` keep
the outer `errVar` in sync with the last assignment to `err`. -/
def stepOne (env : Env) (mids : List (MutReq → MutReq)) (attempt : Nat) (st : St) :
    St × Option LoopExit :=
  let st := { st with attemptsRun := st.attemptsRun ++ [attempt],
                      flds := mids.foldl (fun f m => m f) st.flds }
  let bres :=
    if st.reqRaw = none ∨ mids.length ≠ 0 then
      let b := buildReqRaw env st
      ({ b.1 with builds := b.1.builds ++ [attempt] }, b.2)
    else (st, none)
  match bres with
  | (st, some _) => (st, some (.buildFail st.errVar))
  | (st, none) =>
    let rr := st.reqRaw
    let st := { st with dispatches := st.dispatches ++ [(attempt, rr)] }
    match env.dispatch attempt rr with
    | .doErr eS => ({ st with respRaw := none, reason := eS, errVar := some eS }, none)
    | .readErr pc eS status =>
      ({ st with respRaw := some status, content := some pc, reason := eS,
                 errVar := some eS }, none)
    | .ok status body =>
      let st := { st with respRaw := some status, content := some body, errVar := none }
      if shouldRetryOnStatusCode status st.flds.RetryOnStatusCodes then
        ({ st with reason := reasonStatus status body }, none)
      else if shouldRetryOnTextMarker body st.flds.RetryOnTextMarkers then
        ({ st with reason := reasonMarker status body }, none)
      else (st, some .success)

/-- The attempt loop `for attempt = 1; attempt <= r.Attempts; attempt++`. -/
def loop (env : Env) (mids : List (MutReq → MutReq)) :
    Nat → Nat → St → St × LoopExit
  | _, 0, st => (st, .exhausted)
  | attempt, fuel+1, st =>
    match stepOne env mids attempt st with
    | (st', some ex) => (st', ex)
    | (st', none) => loop env mids (attempt+1) fuel st'

/-- The error returned by the part_002 `Send`: the raw outer `err` on a build
failure, or the final `errow.New("FAILED: ", msg)`. -/
inductive SendError where
  | raw (e : GoStr)
  | failed (msg : GoStr)
deriving DecidableEq

/-- Result of a part_002 `Send` run. -/
structure SendResult where
  resp : Option Resp
  error : Option SendError
  builds : List Nat
  attemptsRun : List Nat
  dispatches : List (Nat × Option ReqRaw)
  methodFinal : GoStr
  fullURLFinal : GoStr
  reasonFinal : GoStr
deriving DecidableEq

/-- The tail of the part_002 `Send` after the attempt loop.  On a build
failure it models `return nil, err` with the OUTER `err`: after a proxy-parse
failure that outer `err` was never written, so the returned error is nil. -/
def wrapUp (st : St) (ex : LoopExit) : SendResult :=
  let base : SendResult :=
    { resp := some { Content := st.content, RespRaw := st.respRaw, text := [] }
      error := none
      builds := st.builds
      attemptsRun := st.attemptsRun
      dispatches := st.dispatches
      methodFinal := st.flds.Method
      fullURLFinal := st.fullURL
      reasonFinal := st.reason }
  match ex with
  | .buildFail ev => { base with resp := none, error := ev.map .raw }
  | .success => base
  | .exhausted =>
    let msg :=
      if goContains st.reason st.fullURL then st.reason
      else st.flds.Method ++ str " " ++ st.fullURL ++ str ": " ++ st.reason
    { base with error := some (.failed msg) }

/-- The state a part_002 `Send` run starts from. -/
def initialSt (init : Init) : St :=
  { flds := init.flds, reqRaw := init.reqRaw0,
    respRaw := none, content := none, reason := [], fullURL := [], errVar := none,
    builds := [], attemptsRun := [], dispatches := [] }

/-- `Send` (part_002): run the attempt loop over the budget `Attempts`, then
wrap up. -/
def Send (init : Init) (env : Env) : SendResult :=
  let r := loop env init.mids 1 init.Attempts.toNat (initialSt init)
  wrapUp r.1 r.2

end ReqV2

/-! ## Spec-side definitions used to state the claims -/

/-- Claim C1's rendering of one entry: `"key":` followed by the value verbatim
(unquoted) when the value string both begins with `{` and ends with `}` or
both begins with `[` and ends with `]`, and otherwise the value wrapped in
double quotes. -/
def claimItem (v : val) : GoStr :=
  str "\"" ++ v.Name ++ str "\":" ++
    (if (v.Value.head? = some '{' ∧ v.Value.getLast? = some '}') ∨
        (v.Value.head? = some '[' ∧ v.Value.getLast? = some ']') then
      v.Value
    else str "\"" ++ v.Value ++ str "\"")

/-- Claim C6's composed failure message: the recorded reason when it already
contains the full URL, and otherwise the reason prefixed with the method and
the full URL. -/
def claimFailMsg (method url reason : GoStr) : GoStr :=
  if goContains reason url then reason
  else method ++ str " " ++ url ++ str ": " ++ reason

/-! ## Concrete fixtures for witnesses and counterexamples -/

/-- An environment whose collaborators all succeed: the full URL resolves to
`"u"` and every dispatch returns status 200 with an empty body. -/
def envOk : Env :=
  { parseProxy := fun _ => .ok ()
    buildFullURL := fun _ _ _ => .ok (str "u")
    newRequest := fun _ _ _ => .ok ()
    dispatch := fun _ _ => .ok 200 [] }

/-- `envOk` with a URL builder that fails. -/
def envBuildFail : Env :=
  { envOk with buildFullURL := fun _ _ _ => .error (str "parse u") }

/-- `envOk` with every dispatch failing with an error text `"uu"` that
contains the full URL `"u"` twice. -/
def envDoErr : Env :=
  { envOk with dispatch := fun _ _ => .doErr (str "uu") }

/-- `envOk` with a proxy-URL parse that fails. -/
def envBadProxy : Env :=
  { envOk with parseProxy := fun _ => .error (str "invalid control character in URL") }

/-- A fresh part_002 request with a proxy URL set. -/
def initV2Proxy : ReqV2.Init :=
  { ReqV2.New (str "x") with
      flds := { (ReqV2.New (str "x")).flds with ProxyURL := str "p" } }

/-- A fresh req.go request whose only retry text marker is the empty string. -/
def initMarkerNil : ReqV1.Init :=
  { ReqV1.New (str "x") with
      flds := { (ReqV1.New (str "x")).flds with RetryOnTextMarkers := [str ""] } }

/-! ## Lemmas -/

lemma goIsPre_iff (p s : GoStr) : goIsPre p s = true ↔ p <+: s := by
  induction p generalizing s with
  | nil => simp [goIsPre]
  | cons a p ih =>
    cases s with
    | nil => simp [goIsPre]
    | cons b s =>
      simp only [goIsPre, List.cons_prefix_cons]
      split
      · simp_all [ih]
      · simp_all

lemma goContains_iff (s sub : GoStr) : goContains s sub = true ↔ sub <:+: s := by
  induction s with
  | nil =>
    rw [goContains]
    constructor
    · intro h
      split at h
      · next hp => exact ((goIsPre_iff _ _).1 hp).isInfix
      · simp at h
    · intro h
      rw [List.infix_nil] at h
      subst h
      simp [goIsPre]
  | cons b t ih =>
    rw [goContains]
    constructor
    · intro h
      split at h
      · next hp => exact ((goIsPre_iff _ _).1 hp).isInfix
      · exact (List.infix_cons_iff.2 (Or.inr (ih.1 h)))
    · intro h
      split
      · rfl
      · next hp =>
        rcases List.infix_cons_iff.1 h with h' | h'
        · exact absurd ((goIsPre_iff _ _).2 h') (by simp [hp])
        · exact ih.2 h'
lemma hexDigitChar_ne_amp (n : Nat) : hexDigitChar n ≠ '&' := by
  have h : n % 16 < 16 := Nat.mod_lt _ (by norm_num)
  have : ∀ k, k < 16 → (str "0123456789ABCDEF").getD k '0' ≠ '&' := by decide
  exact this _ h

lemma amp_notMem_escChar (c : Char) : '&' ∉ escChar c := by
  unfold escChar
  split
  · next h =>
    intro hm
    rw [List.mem_singleton] at hm
    subst hm
    simp [isUnreservedChar] at h
  · split
    · simp
    · intro hm
      rw [List.mem_flatMap] at hm
      obtain ⟨b, _, hb⟩ := hm
      simp only [List.mem_cons, List.not_mem_nil, or_false] at hb
      rcases hb with h1 | h2 | h3
      · exact absurd h1 (by decide)
      · exact (hexDigitChar_ne_amp _) h2.symm
      · exact (hexDigitChar_ne_amp _) h3.symm

lemma amp_notMem_queryEscape (s : GoStr) : '&' ∉ queryEscape s := by
  intro h
  rw [queryEscape, List.mem_flatMap] at h
  obtain ⟨c, _, hc⟩ := h
  exact amp_notMem_escChar c hc
/-! ## Rendering lemmas shared by the `Vals` claims -/

lemma foldl_sep_eq {α : Type} (sep : GoStr) (f : α → GoStr) :
    ∀ (l : List α) (a : GoStr),
      l.foldl (fun acc q => acc ++ sep ++ f q) a = a ++ l.flatMap (fun q => sep ++ f q) := by
  intro l
  induction l with
  | nil => simp
  | cons x xs ih =>
    intro a
    rw [List.foldl_cons, ih, List.flatMap_cons]
    simp [List.append_assoc]

lemma intercalate_eq_flatMap (sep : GoStr) (x : GoStr) (xs : List GoStr) :
    List.intercalate sep (x :: xs) = x ++ xs.flatMap (fun y => sep ++ y) := by
  induction xs generalizing x with
  | nil => simp [List.intercalate]
  | cons y ys ih =>
    simp only [List.intercalate, List.intersperse_cons₂, List.flatten_cons] at *
    simp [ih y, List.flatMap_cons, List.append_assoc]

lemma Vals.JSON_eq_intercalate (vals : Vals) :
    Vals.JSON vals = str "\x7b" ++ List.intercalate (str ",") (vals.map jsonItem) ++ str "\x7d" := by
  cases vals with
  | nil => rfl
  | cons v rest =>
    rw [Vals.JSON, foldl_sep_eq, List.map_cons, intercalate_eq_flatMap]
    simp [List.flatMap_map, List.append_assoc]

lemma Vals.URLEncode_eq_intercalate (vals : Vals) :
    Vals.URLEncode vals = List.intercalate (str "&") (vals.map encSeg) := by
  cases vals with
  | nil => rfl
  | cons p rest =>
    rw [Vals.URLEncode, foldl_sep_eq, List.map_cons, intercalate_eq_flatMap]
    simp [List.flatMap_map]

lemma amp_notMem_encSeg (p : val) : '&' ∉ encSeg p := by
  intro h
  rw [encSeg] at h
  rcases List.mem_append.1 h with h' | h'
  · rcases List.mem_append.1 h' with h'' | h''
    · exact amp_notMem_queryEscape _ h''
    · simp [str] at h''
  · exact amp_notMem_queryEscape _ h'

lemma encSeg_ne_nil (p : val) : encSeg p ≠ [] := by
  rw [encSeg]
  intro h
  rcases List.append_eq_nil.1 h with ⟨h1, -⟩
  rcases List.append_eq_nil.1 h1 with ⟨-, h2⟩
  simp [str] at h2

/-- the last nonempty chunk of a `flatMap` over a nonempty list -/
lemma flatMap_ends_with_seg {α : Type} (g : α → GoStr) :
    ∀ (l : List α), l ≠ [] →
      ∃ x q, q ∈ l ∧ l.flatMap (fun y => str "&" ++ g y) = x ++ g q := by
  intro l
  induction l with
  | nil => intro h; exact absurd rfl h
  | cons q rest ih =>
    intro _
    cases rest with
    | nil =>
      exact ⟨str "&", q, by simp⟩
    | cons r rs =>
      obtain ⟨x, q', hq', hx⟩ := ih (by simp)
      refine ⟨str "&" ++ g q ++ x, q', by simp [hq'], ?_⟩
      rw [List.flatMap_cons, hx]
      simp [List.append_assoc]
/-! ## Invariants of the `ReqV1` attempt loop -/

namespace ReqV1

lemma build_pres (env : Env) (st : St) :
    (build env st).1.flds = st.flds ∧
    (build env st).1.builds = st.builds ∧
    (build env st).1.attemptsRun = st.attemptsRun ∧
    (build env st).1.dispatches = st.dispatches ∧
    (build env st).1.client = some () := by
  simp only [build]
  cases h1 : env.buildFullURL st.flds.URL st.flds.Path st.flds.Params with
  | error e => simp
  | ok u =>
    cases h2 : env.newRequest st.flds.Method u
        (match st.flds.Data with
          | some d => Vals.URLEncode d
          | none => st.flds.Body) with
    | error e => simp [h2]
    | ok a => simp [h2]

lemma build_ok_reqRaw (env : Env) (st : St) (h : (build env st).2 = none) :
    (build env st).1.reqRaw = materialize env st.flds := by
  simp only [build, materialize] at *
  cases h1 : env.buildFullURL st.flds.URL st.flds.Path st.flds.Params with
  | error e => simp [h1] at h
  | ok u =>
    cases h2 : env.newRequest st.flds.Method u
        (match st.flds.Data with
          | some d => Vals.URLEncode d
          | none => st.flds.Body) with
    | error e => simp [h1, h2] at h
    | ok a => simp [h1, h2]

end ReqV1

namespace ReqV1

lemma build_reqRaw_of_none (env : Env) (st : St) (h : st.reqRaw = none) :
    (build env st).1.reqRaw = materialize env st.flds := by
  simp only [build, materialize]
  cases h1 : env.buildFullURL st.flds.URL st.flds.Path st.flds.Params with
  | error e => simp [h]
  | ok u =>
    cases h2 : env.newRequest st.flds.Method u
        (match st.flds.Data with
          | some d => Vals.URLEncode d
          | none => st.flds.Body) with
    | error e => simp [h2]
    | ok a => simp [h2]

lemma stepOne_noMids (env : Env) (attempt : Nat) (st : St) (h : st.client = some ()) :
    ∀ st' ex?, stepOne env [] attempt st = (st', ex?) →
      st'.client = some () ∧ st'.flds = st.flds ∧ st'.reqRaw = st.reqRaw ∧
      st'.builds = st.builds ∧ st'.attemptsRun = st.attemptsRun ++ [attempt] ∧
      st'.dispatches = st.dispatches ++ [(attempt, st.reqRaw)] ∧
      (ex? = none ∨ ex? = some .success) := by
  intro st' ex? hs
  simp only [stepOne, List.foldl_nil, List.length_nil, ne_eq, not_true_eq_false, or_false,
    h] at hs
  rw [if_neg (by simp)] at hs
  cases hd : env.dispatch attempt st.reqRaw with
  | doErr eS =>
    simp [hd] at hs
    rcases hs with ⟨h1, h2⟩
    subst h1 h2
    simp
  | readErr pc eS status =>
    simp [hd] at hs
    rcases hs with ⟨h1, h2⟩
    subst h1 h2
    simp
  | ok status body =>
    simp only [hd] at hs
    split at hs
    · rcases Prod.mk.injEq .. ▸ hs with ⟨h1, h2⟩
      subst h1
      simp_all
    · split at hs
      · rcases Prod.mk.injEq .. ▸ hs with ⟨h1, h2⟩
        subst h1
        simp_all
      · rcases Prod.mk.injEq .. ▸ hs with ⟨h1, h2⟩
        subst h1
        simp_all

end ReqV1

namespace ReqV1

lemma stepOne_mids (env : Env) (mids : List (MutReq → MutReq)) (attempt : Nat) (st : St)
    (h : mids.length ≠ 0) :
    ∀ st' ex?, stepOne env mids attempt st = (st', ex?) →
      st'.attemptsRun = st.attemptsRun ++ [attempt] ∧
      st'.builds = st.builds ++ [attempt] := by
  intro st' ex? hs
  simp only [stepOne] at hs
  rw [if_pos (Or.inr h)] at hs
  obtain ⟨hf, hbd, hat, hdp, hcl⟩ := build_pres env
    { st with attemptsRun := st.attemptsRun ++ [attempt],
              flds := mids.foldl (fun f m => m f) st.flds }
  rcases hE : (build env { st with attemptsRun := st.attemptsRun ++ [attempt],
                                   flds := mids.foldl (fun f m => m f) st.flds }).2
    with _ | e
  · rw [hE] at hs
    cases hd : env.dispatch attempt
        (build env { st with attemptsRun := st.attemptsRun ++ [attempt],
                             flds := mids.foldl (fun f m => m f) st.flds }).1.reqRaw with
    | doErr eS =>
      simp [hd] at hs
      rcases hs with ⟨h1, h2⟩
      subst h1
      simp_all
    | readErr pc eS status =>
      simp [hd] at hs
      rcases hs with ⟨h1, h2⟩
      subst h1
      simp_all
    | ok status body =>
      simp only [hd] at hs
      split at hs
      · simp at hs
        rcases hs with ⟨h1, h2⟩
        subst h1
        simp_all
      · split at hs
        · simp at hs
          rcases hs with ⟨h1, h2⟩
          subst h1
          simp_all
        · simp at hs
          rcases hs with ⟨h1, h2⟩
          subst h1
          simp_all
  · rw [hE] at hs
    simp at hs
    rcases hs with ⟨h1, h2⟩
    subst h1
    simp_all

end ReqV1

namespace ReqV1

lemma stepOne_firstBuild (env : Env) (attempt : Nat) (st : St)
    (hcl : st.client = none) (hrq : st.reqRaw = none) :
    ∀ st' ex?, stepOne env [] attempt st = (st', ex?) →
      st'.client = some () ∧ st'.flds = st.flds ∧
      st'.builds = st.builds ++ [attempt] ∧
      st'.attemptsRun = st.attemptsRun ++ [attempt] ∧
      st'.reqRaw = materialize env st.flds ∧
      (((∃ e, ex? = some (.buildFail e)) ∧ st'.dispatches = st.dispatches) ∨
        ((ex? = none ∨ ex? = some .success) ∧
          st'.dispatches = st.dispatches ++ [(attempt, materialize env st.flds)])) := by
  intro st' ex? hs
  simp only [stepOne, List.foldl_nil] at hs
  rw [if_pos (Or.inl hcl)] at hs
  obtain ⟨hf, hbd, hat, hdp, hcl'⟩ := build_pres env
    { st with attemptsRun := st.attemptsRun ++ [attempt], flds := st.flds }
  have hmat : (build env { st with attemptsRun := st.attemptsRun ++ [attempt],
                                   flds := st.flds }).1.reqRaw = materialize env st.flds :=
    build_reqRaw_of_none env _ hrq
  rcases hE : (build env { st with attemptsRun := st.attemptsRun ++ [attempt],
                                   flds := st.flds }).2 with _ | e
  · rw [hE] at hs
    cases hd : env.dispatch attempt
        (build env { st with attemptsRun := st.attemptsRun ++ [attempt],
                             flds := st.flds }).1.reqRaw with
    | doErr eS =>
      simp [hd] at hs
      rcases hs with ⟨h1, h2⟩
      subst h1
      refine ⟨by simp_all, by simp_all, by simp_all, by simp_all, by simp_all, ?_⟩
      exact Or.inr ⟨Or.inl h2.symm, by simp_all⟩
    | readErr pc eS status =>
      simp [hd] at hs
      rcases hs with ⟨h1, h2⟩
      subst h1
      refine ⟨by simp_all, by simp_all, by simp_all, by simp_all, by simp_all, ?_⟩
      exact Or.inr ⟨Or.inl h2.symm, by simp_all⟩
    | ok status body =>
      simp only [hd] at hs
      split at hs
      · simp at hs
        rcases hs with ⟨h1, h2⟩
        subst h1
        refine ⟨by simp_all, by simp_all, by simp_all, by simp_all, by simp_all, ?_⟩
        exact Or.inr ⟨Or.inl h2.symm, by simp_all⟩
      · split at hs
        · simp at hs
          rcases hs with ⟨h1, h2⟩
          subst h1
          refine ⟨by simp_all, by simp_all, by simp_all, by simp_all, by simp_all, ?_⟩
          exact Or.inr ⟨Or.inl h2.symm, by simp_all⟩
        · simp at hs
          rcases hs with ⟨h1, h2⟩
          subst h1
          refine ⟨by simp_all, by simp_all, by simp_all, by simp_all, by simp_all, ?_⟩
          exact Or.inr ⟨Or.inr h2.symm, by simp_all⟩
  · rw [hE] at hs
    simp at hs
    rcases hs with ⟨h1, h2⟩
    subst h1
    refine ⟨by simp_all, by simp_all, by simp_all, by simp_all, by simp_all, ?_⟩
    exact Or.inl ⟨⟨e, h2.symm⟩, by simp_all⟩

end ReqV1
lemma goContains_nil (content : GoStr) : goContains content [] = true := by
  rw [goContains.eq_def]
  simp [goIsPre]

lemma shouldRetryOnTextMarker_of_nil_mem (markers : List GoStr) (h : [] ∈ markers)
    (content : GoStr) : shouldRetryOnTextMarker content markers = true := by
  induction markers with
  | nil => simp at h
  | cons m rest ih =>
    rw [shouldRetryOnTextMarker]
    rcases List.mem_cons.1 h with h' | h'
    · subst h'
      rw [if_pos (goContains_nil content)]
    · split
      · rfl
      · exact ih h'
namespace ReqV1

lemma stepOne_marker (env : Env) (attempt : Nat) (st : St)
    (hm : [] ∈ st.flds.RetryOnTextMarkers) :
    ∀ st' ex?, stepOne env [] attempt st = (st', ex?) →
      st'.flds = st.flds ∧ ex? ≠ some LoopExit.success := by
  intro st' ex? hs
  simp only [stepOne, List.foldl_nil] at hs
  rcases hc : st.client with _ | u
  · rw [if_pos (Or.inl hc)] at hs
    obtain ⟨hf, hbd, hat, hdp, hcl'⟩ := build_pres env
      { st with attemptsRun := st.attemptsRun ++ [attempt], flds := st.flds }
    rcases hE : (build env { st with attemptsRun := st.attemptsRun ++ [attempt],
                                     flds := st.flds }).2 with _ | e
    · rw [hE] at hs
      cases hd : env.dispatch attempt
          (build env { st with attemptsRun := st.attemptsRun ++ [attempt],
                               flds := st.flds }).1.reqRaw with
      | doErr eS =>
        simp [hd] at hs
        rcases hs with ⟨h1, h2⟩
        subst h1
        exact ⟨by simp_all, by simp [← h2]⟩
      | readErr pc eS status =>
        simp [hd] at hs
        rcases hs with ⟨h1, h2⟩
        subst h1
        exact ⟨by simp_all, by simp [← h2]⟩
      | ok status body =>
        simp only [hd] at hs
        split at hs
        · simp at hs
          rcases hs with ⟨h1, h2⟩
          subst h1
          exact ⟨by simp_all, by simp [← h2]⟩
        · split at hs
          · simp at hs
            rcases hs with ⟨h1, h2⟩
            subst h1
            exact ⟨by simp_all, by simp [← h2]⟩
          · next hcond hmk =>
            exfalso
            apply hmk
            have heq : (build env { st with attemptsRun := st.attemptsRun ++ [attempt],
                                            flds := st.flds }).1.flds.RetryOnTextMarkers
                = st.flds.RetryOnTextMarkers := by simp_all
            rw [heq]
            exact shouldRetryOnTextMarker_of_nil_mem _ hm body
    · rw [hE] at hs
      simp at hs
      rcases hs with ⟨h1, h2⟩
      subst h1
      exact ⟨by simp_all, by simp [← h2]⟩
  · rw [if_neg (by simp [hc])] at hs
    cases hd : env.dispatch attempt st.reqRaw with
    | doErr eS =>
      simp [hd] at hs
      rcases hs with ⟨h1, h2⟩
      subst h1
      exact ⟨by simp_all, by simp [← h2]⟩
    | readErr pc eS status =>
      simp [hd] at hs
      rcases hs with ⟨h1, h2⟩
      subst h1
      exact ⟨by simp_all, by simp [← h2]⟩
    | ok status body =>
      simp only [hd] at hs
      split at hs
      · simp at hs
        rcases hs with ⟨h1, h2⟩
        subst h1
        exact ⟨by simp_all, by simp [← h2]⟩
      · split at hs
        · simp at hs
          rcases hs with ⟨h1, h2⟩
          subst h1
          exact ⟨by simp_all, by simp [← h2]⟩
        · next hcond hmk =>
          exfalso
          apply hmk
          have heq : ({ st with attemptsRun := st.attemptsRun ++ [attempt],
                                flds := st.flds } : St).flds.RetryOnTextMarkers
              = st.flds.RetryOnTextMarkers := by simp
          rw [heq]
          exact shouldRetryOnTextMarker_of_nil_mem _ hm body

end ReqV1

namespace ReqV1

lemma loop_noMids (env : Env) :
    ∀ (fuel attempt : Nat) (st : St), st.client = some () →
      (loop env [] attempt fuel st).1.client = some () ∧
      (loop env [] attempt fuel st).1.flds = st.flds ∧
      (loop env [] attempt fuel st).1.reqRaw = st.reqRaw ∧
      (loop env [] attempt fuel st).1.builds = st.builds ∧
      (∃ na, (loop env [] attempt fuel st).1.attemptsRun = st.attemptsRun ++ na ∧
        ∀ k ∈ na, attempt ≤ k) ∧
      (∃ nd, (loop env [] attempt fuel st).1.dispatches = st.dispatches ++ nd ∧
        ∀ p ∈ nd, p.2 = st.reqRaw) := by
  intro fuel
  induction fuel with
  | zero =>
    intro attempt st h
    rw [loop]
    exact ⟨h, rfl, rfl, rfl, ⟨[], by simp, by simp⟩, ⟨[], by simp, by simp⟩⟩
  | succ n ih =>
    intro attempt st h
    rw [loop]
    cases hs : stepOne env [] attempt st with
    | mk st1 ex? =>
      obtain ⟨hcl, hfl, hrq, hbd, hat, hdp, hex⟩ := stepOne_noMids env attempt st h st1 ex? hs
      cases ex? with
      | some ex =>
        exact ⟨hcl, hfl, hrq, hbd, ⟨[attempt], by simp [hat], by simp⟩,
          ⟨[(attempt, st.reqRaw)], by simp [hdp], by simp⟩⟩
      | none =>
        obtain ⟨hcl2, hfl2, hrq2, hbd2, ⟨na, hna, hka⟩, ⟨nd, hnd, hpd⟩⟩ :=
          ih (attempt+1) st1 hcl
        refine ⟨hcl2, by rw [hfl2, hfl], by rw [hrq2, hrq], by rw [hbd2, hbd], ?_, ?_⟩
        · refine ⟨attempt :: na, ?_, ?_⟩
          · rw [hna, hat]
            simp
          · intro k hk
            rcases List.mem_cons.1 hk with h' | h'
            · omega
            · have := hka k h'
              omega
        · refine ⟨(attempt, st.reqRaw) :: nd, ?_, ?_⟩
          · rw [hnd, hdp]
            simp
          · intro p hp
            rcases List.mem_cons.1 hp with h' | h'
            · rw [h']
            · rw [hpd p h', hrq]

lemma loop_mids (env : Env) (mids : List (MutReq → MutReq)) (h : mids.length ≠ 0) :
    ∀ (fuel attempt : Nat) (st : St), ∃ l,
      (loop env mids attempt fuel st).1.attemptsRun = st.attemptsRun ++ l ∧
      (loop env mids attempt fuel st).1.builds = st.builds ++ l ∧
      (∀ k ∈ l, attempt ≤ k) ∧ (fuel ≠ 0 → attempt ∈ l) := by
  intro fuel
  induction fuel with
  | zero =>
    intro attempt st
    rw [loop]
    exact ⟨[], by simp, by simp, by simp, by simp⟩
  | succ n ih =>
    intro attempt st
    rw [loop]
    cases hs : stepOne env mids attempt st with
    | mk st1 ex? =>
      obtain ⟨hat, hbd⟩ := stepOne_mids env mids attempt st h st1 ex? hs
      cases ex? with
      | some ex =>
        exact ⟨[attempt], hat, hbd, by simp, fun _ => by simp⟩
      | none =>
        obtain ⟨l, hna, hnb, hka, _⟩ := ih (attempt+1) st1
        refine ⟨attempt :: l, ?_, ?_, ?_, fun _ => by simp⟩
        · rw [hna, hat]
          simp
        · rw [hnb, hbd]
          simp
        · intro k hk
          rcases List.mem_cons.1 hk with h' | h'
          · omega
          · have := hka k h'
            omega

lemma loop_marker (env : Env) :
    ∀ (fuel attempt : Nat) (st : St), [] ∈ st.flds.RetryOnTextMarkers →
      (loop env [] attempt fuel st).2 ≠ LoopExit.success := by
  intro fuel
  induction fuel with
  | zero =>
    intro attempt st _
    rw [loop]
    simp
  | succ n ih =>
    intro attempt st h
    rw [loop]
    cases hs : stepOne env [] attempt st with
    | mk st1 ex? =>
      obtain ⟨hfl, hex⟩ := stepOne_marker env attempt st h st1 ex? hs
      cases ex? with
      | some ex =>
        intro hcon
        exact hex (congrArg some hcon)
      | none =>
        exact ih (attempt+1) st1 (by rw [hfl]; exact h)

lemma wrapUp_logs (st : St) (ex : LoopExit) :
    (wrapUp st ex).builds = st.builds ∧
    (wrapUp st ex).attemptsRun = st.attemptsRun ∧
    (wrapUp st ex).dispatches = st.dispatches ∧
    (wrapUp st ex).methodFinal = st.flds.Method ∧
    (wrapUp st ex).fullURLFinal = st.fullURL ∧
    (wrapUp st ex).reasonFinal = st.reason := by
  cases ex <;> simp [wrapUp]

lemma wrapUp_resp_none_iff (st : St) (ex : LoopExit) :
    (wrapUp st ex).resp = none ↔ ∃ e, (wrapUp st ex).error = some (.buildErr e) := by
  cases ex <;> simp [wrapUp]

lemma wrapUp_error_none_iff (st : St) (ex : LoopExit) :
    (wrapUp st ex).error = none ↔ ex = .success := by
  cases ex <;> simp [wrapUp]

lemma wrapUp_failed_msg (st : St) (ex : LoopExit) (msg : GoStr)
    (h : (wrapUp st ex).error = some (.failed msg)) :
    msg = (if goContains st.reason st.fullURL then st.reason
           else st.flds.Method ++ str " " ++ st.fullURL ++ str ": " ++ st.reason) := by
  cases ex <;> simp [wrapUp] at h
  simp only [List.append_assoc]
  exact h.symm

end ReqV1

lemma goIsPre_singleton (c : Char) (s : GoStr) :
    goIsPre [c] s = true ↔ s.head? = some c := by
  cases s with
  | nil => simp [goIsPre]
  | cons b t =>
    rw [goIsPre]
    split
    · next h =>
      subst h
      simp [goIsPre]
    · next h =>
      simp
      exact fun h' => h h'.symm

lemma hasSeqSig_iff (s : GoStr) :
    hasSeqSig s = true ↔
      ((s.head? = some '{' ∧ s.getLast? = some '}') ∨
        (s.head? = some '[' ∧ s.getLast? = some ']')) := by
  rw [hasSeqSig]
  rw [show (str "\x7b") = ['{'] from rfl, show (str "[") = ['['] from rfl,
    show ((str "\x7d").reverse) = ['}'] from rfl, show ((str "]").reverse) = [']'] from rfl]
  simp only [Bool.or_eq_true, Bool.and_eq_true, goIsPre_singleton, List.head?_reverse]

lemma jsonItem_eq_claimItem (v : val) : jsonItem v = claimItem v := by
  rw [jsonItem, claimItem]
  by_cases h : hasSeqSig v.Value
  · rw [if_pos h, if_pos ((hasSeqSig_iff v.Value).1 h)]
  · rw [if_neg h, if_neg (fun hc => h ((hasSeqSig_iff v.Value).2 hc))]
    rw [show (str "\":\"") = str "\":" ++ str "\"" from rfl]
    simp [List.append_assoc]

lemma mem_of_getLast?_eq {l : GoStr} {c : Char} (h : l.getLast? = some c) : c ∈ l := by
  rw [List.getLast?_eq_head?_reverse] at h
  have : c ∈ l.reverse := List.mem_of_mem_head? (by rw [h]; rfl)
  exact List.mem_reverse.1 this

lemma URLEncode_flatMap (p : val) (rest : List val) :
    Vals.URLEncode (p :: rest) =
      encSeg p ++ rest.flatMap (fun q => str "&" ++ encSeg q) := by
  rw [Vals.URLEncode, foldl_sep_eq]

lemma URLEncode_head_not_amp (vals : Vals) :
    (Vals.URLEncode vals).head? ≠ some '&' := by
  cases vals with
  | nil => simp [Vals.URLEncode]
  | cons p rest =>
    rw [URLEncode_flatMap, List.head?_append_of_ne_nil _ (encSeg_ne_nil p)]
    intro h
    exact amp_notMem_encSeg p (List.mem_of_mem_head? (by rw [h]; rfl))

lemma URLEncode_getLast_not_amp (vals : Vals) :
    (Vals.URLEncode vals).getLast? ≠ some '&' := by
  cases vals with
  | nil => simp [Vals.URLEncode]
  | cons p rest =>
    rw [URLEncode_flatMap]
    cases hr : rest with
    | nil =>
      simp only [List.flatMap_nil, List.append_nil]
      intro h
      exact amp_notMem_encSeg p (mem_of_getLast?_eq h)
    | cons r rs =>
      obtain ⟨x, q, hq, hx⟩ := flatMap_ends_with_seg encSeg (r :: rs) (by simp)
      rw [hx, ← List.append_assoc, List.getLast?_append_of_ne_nil _ (encSeg_ne_nil q)]
      intro h
      exact amp_notMem_encSeg q (mem_of_getLast?_eq h)

/-! ## The claims -/

/-- C1: for every `Vals` sequence, `JSON()` renders each entry in order as
`"key":` followed by the value verbatim (unquoted) when the value string both
begins with `{` and ends with `}` or both begins with `[` and ends with `]`,
and otherwise as the value wrapped in double quotes, the items
comma-separated inside braces; in particular
`Vals{{"name", Vals{{"k","v"}}.JSON()}}.JSON()` equals `{"name":{"k":"v"}}`. -/
theorem C1_json_rendering :
    (∀ vals : Vals,
      Vals.JSON vals =
        str "\x7b" ++ List.intercalate (str ",") (vals.map claimItem) ++ str "\x7d") ∧
    Vals.JSON [⟨str "name", Vals.JSON [⟨str "k", str "v"⟩]⟩] =
      str "\x7b\"name\":\x7b\"k\":\"v\"\x7d\x7d" := by
  constructor
  · intro vals
    have he : jsonItem = claimItem := funext jsonItem_eq_claimItem
    rw [Vals.JSON_eq_intercalate, he]
  · decide

/-- C2 as stated is false: when URL building fails before any dispatch,
`Send` returns a nil `Resp` together with a non-nil error. -/
theorem C2_counterexample :
    (ReqV1.Send (ReqV1.New (str "x")) envBuildFail).error ≠ none ∧
    (ReqV1.Send (ReqV1.New (str "x")) envBuildFail).resp = none := by decide

/-- C2 amended: `Send` returns a nil `Resp` exactly when the run ends with a
build error (URL building or raw-request construction failed); in every other
erring run — in particular when the attempt budget is exhausted — the `Resp`
is non-nil alongside the error. -/
theorem C2_resp_nil_iff_build_error (init : ReqV1.Init) (env : Env) :
    (ReqV1.Send init env).resp = none ↔
      ∃ e, (ReqV1.Send init env).error = some (ReqV1.SendError.buildErr e) := by
  simp only [ReqV1.Send]
  exact ReqV1.wrapUp_resp_none_iff _ _

/-- C3: evaluating the part_002 `Send` at a request whose `ProxyURL` fails to
parse: the send aborts before any dispatch, but both the returned `Resp` and
the returned error are nil — the wrapped "bad proxy url" error is discarded
at the call site because `return nil, err` reads the outer, never-written
`err`. -/
theorem C3_proxy_bug_eval :
    (ReqV2.Send initV2Proxy envBadProxy).resp = none ∧
    (ReqV2.Send initV2Proxy envBadProxy).error = none ∧
    (ReqV2.Send initV2Proxy envBadProxy).dispatches = [] := by decide

/-- C4 as stated is false: the part_002 generation's `New` defaults the
attempt budget to 1, not 3. -/
theorem C4_counterexample : (ReqV2.New (str "u")).Attempts ≠ 3 := by decide

/-- C4 amended: `New` defaults `Method` to "GET", the retry text markers to
["error","Error"], the retry status ranges to [[400,600]] and the retry delay
to 1ms in both generations; the req.go generation defaults the attempt budget
to 3 with a 10-second timeout, while the part_002 generation defaults it to 1
with a 30-second timeout. -/
theorem C4_new_defaults (url : GoStr) :
    (ReqV1.New url).flds.Method = str "GET" ∧
    (ReqV1.New url).RetryTimes = 3 ∧
    (ReqV1.New url).flds.RetryOnTextMarkers = [str "error", str "Error"] ∧
    (ReqV1.New url).flds.RetryOnStatusCodes = [(400, 600)] ∧
    (ReqV1.New url).flds.RetryDelayMillis = 1 ∧
    (ReqV1.New url).flds.Timeout = 10 * 1000000000 ∧
    (ReqV1.New url).flds.URL = url ∧
    (ReqV2.New url).flds.Method = str "GET" ∧
    (ReqV2.New url).Attempts = 1 ∧
    (ReqV2.New url).flds.RetryOnTextMarkers = [str "error", str "Error"] ∧
    (ReqV2.New url).flds.RetryOnStatusCodes = [(400, 600)] ∧
    (ReqV2.New url).flds.RetryDelayMillis = 1 ∧
    (ReqV2.New url).flds.Timeout = 30 * 1000000000 :=
  ⟨rfl, rfl, rfl, rfl, rfl, rfl, rfl, rfl, rfl, rfl, rfl, rfl, rfl⟩

/-- C7: for every `Vals` sequence, `URLEncode()` returns the percent-encoded
`key=value` segments joined by `&` in input order (duplicate keys preserved
by the map); the empty sequence yields the empty string, and the result never
has a leading or trailing `&`. -/
theorem C7_urlencode :
    (∀ vals : Vals,
      Vals.URLEncode vals = List.intercalate (str "&") (vals.map encSeg)) ∧
    Vals.URLEncode [] = str "" ∧
    (∀ vals : Vals, (Vals.URLEncode vals).head? ≠ some '&' ∧
      (Vals.URLEncode vals).getLast? ≠ some '&') :=
  ⟨Vals.URLEncode_eq_intercalate, rfl,
    fun vals => ⟨URLEncode_head_not_amp vals, URLEncode_getLast_not_amp vals⟩⟩

/-- C8: `shouldRetryOnStatusCode(code, ranges)` is true exactly when some
range `[from,to]` in the list satisfies `from <= code <= to` (bounds
inclusive); in particular 505 against [[400,500],[506,600]] yields false. -/
theorem C8_status_ranges :
    (∀ (code : Int) (ranges : List (Int × Int)),
      shouldRetryOnStatusCode code ranges = true ↔
        ∃ p ∈ ranges, p.1 ≤ code ∧ code ≤ p.2) ∧
    shouldRetryOnStatusCode 505 [(400, 500), (506, 600)] = false := by
  refine ⟨?_, by decide⟩
  intro code ranges
  induction ranges with
  | nil => simp [shouldRetryOnStatusCode]
  | cons p rest ih =>
    rw [shouldRetryOnStatusCode]
    split
    · next h =>
      constructor
      · intro _
        exact ⟨p, List.mem_cons_self _ _, h⟩
      · intro _
        rfl
    · next h =>
      rw [ih]
      constructor
      · rintro ⟨q, hq, hc⟩
        exact ⟨q, List.mem_cons_of_mem _ hq, hc⟩
      · rintro ⟨q, hq, hc⟩
        rcases List.mem_cons.1 hq with h' | h'
        · subst h'
          exact absurd hc h
        · exact ⟨q, h', hc⟩

/-- C9 as stated is false in its "no re-decoding" part: on a `Resp` whose
`Content` is a non-nil empty byte slice and whose cache is empty, the first
and the second `Text()` call both run the decoding assignment. -/
theorem C9_counterexample :
    (Resp.Text ⟨some [], none, []⟩).2.2 = true ∧
    (Resp.Text ((Resp.Text ⟨some [], none, []⟩).2.1)).2.2 = true := by decide

/-- C9 amended: `Text()` called twice in succession returns the same string
both times; the second call performs no re-decoding whenever the first call
returned a non-empty string; and `Text()` returns the empty string whenever
`Content` is nil or empty (in the empty-but-non-nil case each call re-runs
the decode, with the same observable result). -/
theorem C9_text_caching (resp : Resp) :
    (Resp.Text resp).1 = (Resp.Text (Resp.Text resp).2.1).1 ∧
    ((Resp.Text resp).1 ≠ [] → (Resp.Text (Resp.Text resp).2.1).2.2 = false) ∧
    (resp.text = [] → (resp.Content = none ∨ resp.Content = some []) →
      (Resp.Text resp).1 = []) := by
  by_cases h : resp.text = [] ∧ resp.Content ≠ none
  · have h1 : Resp.Text resp =
        (resp.Content.getD [], { resp with text := resp.Content.getD [] }, true) := by
      rw [Resp.Text, if_pos h]
    by_cases h2 : resp.Content.getD [] = []
    · have h3 : Resp.Text { resp with text := resp.Content.getD [] } =
          (resp.Content.getD [],
            { resp with text := resp.Content.getD [] }, true) := by
        rw [Resp.Text, if_pos ⟨h2, h.2⟩]
      refine ⟨?_, fun hne => ?_, fun _ _ => ?_⟩
      · simp only [h1, h3]
      · simp only [h1] at hne
        exact absurd h2 hne
      · simp only [h1]
        exact h2
    · have h3 : Resp.Text { resp with text := resp.Content.getD [] } =
          (resp.Content.getD [],
            { resp with text := resp.Content.getD [] }, false) := by
        rw [Resp.Text, if_neg (fun hx => h2 hx.1)]
      refine ⟨?_, fun _ => ?_, fun _ hcc => ?_⟩
      · simp only [h1, h3]
      · simp only [h1, h3]
      · rcases hcc with hcn | hce
        · exact absurd hcn h.2
        · simp only [h1, hce]
          rfl
  · have h1 : Resp.Text resp = (resp.text, resp, false) := by
      rw [Resp.Text, if_neg h]
    refine ⟨?_, fun _ => ?_, fun ht _ => ?_⟩
    · simp only [h1]
    · simp only [h1]
    · simp only [h1]
      exact ht

/-- C9 witness: on a `Resp` with content "ab" and an empty cache, the second
`Text()` call performs no re-decoding (applies `C9_text_caching`). -/
theorem C9_witness :
    (Resp.Text ⟨some (str "ab"), none, []⟩).1 ≠ [] ∧
    (Resp.Text (Resp.Text ⟨some (str "ab"), none, []⟩).2.1).2.2 = false :=
  ⟨by decide, (C9_text_caching ⟨some (str "ab"), none, []⟩).2.1 (by decide)⟩

/-- C10: if the marker list given to `shouldRetryOnTextMarker` contains the
empty string, the predicate returns true for every body, including the empty
body; consequently a `Send` (req.go generation, no middleware) whose marker
list contains the empty string never succeeds: it always returns a non-nil
error. -/
theorem C10_empty_marker :
    (∀ (content : GoStr) (markers : List GoStr),
      str "" ∈ markers → shouldRetryOnTextMarker content markers = true) ∧
    (∀ (init : ReqV1.Init) (env : Env),
      init.mids.length = 0 → str "" ∈ init.flds.RetryOnTextMarkers →
      (ReqV1.Send init env).error ≠ none) := by
  constructor
  · intro content markers hm
    exact shouldRetryOnTextMarker_of_nil_mem markers hm content
  · intro init env hmid hm
    have hmids : init.mids = [] := List.length_eq_zero.1 hmid
    simp only [ReqV1.Send, hmids]
    intro hcon
    rw [ReqV1.wrapUp_error_none_iff] at hcon
    exact ReqV1.loop_marker env init.RetryTimes.toNat 1 (ReqV1.initialSt init) hm hcon

/-- C10 witness: the empty-string marker forces a retry on the body "abc",
and a fresh request configured with only that marker always gets an error
from `Send` (applies `C10_empty_marker`). -/
theorem C10_witness :
    shouldRetryOnTextMarker (str "abc") [str ""] = true ∧
    (ReqV1.Send initMarkerNil envOk).error ≠ none :=
  ⟨C10_empty_marker.1 (str "abc") [str ""] (by decide),
    C10_empty_marker.2 initMarkerNil envOk (by decide) (by decide)⟩

/-- C6 as stated is false in its "URL appears exactly once" part: a
budget-exhausted run whose last transport-error text contains the full URL
twice keeps that text verbatim as the message, so the URL appears twice. -/
theorem C6_counterexample :
    (ReqV1.Send (ReqV1.New (str "x")) envDoErr).error
        = some (ReqV1.SendError.failed (str "uu")) ∧
    (ReqV1.Send (ReqV1.New (str "x")) envDoErr).fullURLFinal = str "u" ∧
    countOccur (str "uu") (str "u") = 2 := by decide

/-- C6 amended: when the attempt budget is exhausted and `Send` returns the
FAILED error, the composed message equals the last recorded failure reason
when that reason already contains the full URL, and otherwise equals the
reason prefixed with the method and the full URL; the URL occurs in the
message at least once, and when the reason contains the URL the message is
that reason verbatim, occurrence count included. -/
theorem C6_failure_message (init : ReqV1.Init) (env : Env) (msg : GoStr)
    (h : (ReqV1.Send init env).error = some (ReqV1.SendError.failed msg)) :
    msg = claimFailMsg (ReqV1.Send init env).methodFinal
        (ReqV1.Send init env).fullURLFinal (ReqV1.Send init env).reasonFinal ∧
    goContains msg (ReqV1.Send init env).fullURLFinal = true ∧
    (goContains (ReqV1.Send init env).reasonFinal
        (ReqV1.Send init env).fullURLFinal = true →
      countOccur msg (ReqV1.Send init env).fullURLFinal =
        countOccur (ReqV1.Send init env).reasonFinal
          (ReqV1.Send init env).fullURLFinal) := by
  simp only [ReqV1.Send] at h ⊢
  set st := (ReqV1.loop env init.mids 1 init.RetryTimes.toNat (ReqV1.initialSt init)).1
    with hst
  set ex := (ReqV1.loop env init.mids 1 init.RetryTimes.toNat (ReqV1.initialSt init)).2
    with hex
  obtain ⟨hb, ha, hd, hm, hu, hr⟩ := ReqV1.wrapUp_logs st ex
  have hmsg := ReqV1.wrapUp_failed_msg st ex msg h
  rw [hm, hu, hr]
  simp only [claimFailMsg]
  refine ⟨hmsg, ?_, fun hc => ?_⟩
  · by_cases hc : goContains st.reason st.fullURL = true
    · rw [hmsg, if_pos hc]
      exact hc
    · rw [hmsg, if_neg hc]
      apply (goContains_iff _ _).2
      exact ⟨st.flds.Method ++ str " ", str ": " ++ st.reason, by
        simp [List.append_assoc]⟩
  · rw [hmsg, if_pos hc]

/-- C6 witness: a concrete exhausted run whose message is the reason
verbatim, checked through `C6_failure_message`. -/
theorem C6_witness :
    (ReqV1.Send (ReqV1.New (str "x")) envDoErr).error
        = some (ReqV1.SendError.failed (str "uu")) ∧
    (str "uu" = claimFailMsg (ReqV1.Send (ReqV1.New (str "x")) envDoErr).methodFinal
        (ReqV1.Send (ReqV1.New (str "x")) envDoErr).fullURLFinal
        (ReqV1.Send (ReqV1.New (str "x")) envDoErr).reasonFinal ∧
      goContains (str "uu")
        (ReqV1.Send (ReqV1.New (str "x")) envDoErr).fullURLFinal = true ∧
      (goContains (ReqV1.Send (ReqV1.New (str "x")) envDoErr).reasonFinal
          (ReqV1.Send (ReqV1.New (str "x")) envDoErr).fullURLFinal = true →
        countOccur (str "uu")
            (ReqV1.Send (ReqV1.New (str "x")) envDoErr).fullURLFinal =
          countOccur (ReqV1.Send (ReqV1.New (str "x")) envDoErr).reasonFinal
            (ReqV1.Send (ReqV1.New (str "x")) envDoErr).fullURLFinal)) :=
  ⟨by decide, C6_failure_message (ReqV1.New (str "x")) envDoErr (str "uu") (by decide)⟩

namespace ReqV1

lemma loop_fresh (env : Env) (mids : List (MutReq → MutReq)) (fuel : Nat) (st0 : St)
    (hc : st0.client = none) (hrq : st0.reqRaw = none)
    (hbd : st0.builds = []) (hat : st0.attemptsRun = []) (hdp : st0.dispatches = []) :
    (∀ k ∈ (loop env mids 1 fuel st0).1.attemptsRun,
      (k ∈ (loop env mids 1 fuel st0).1.builds ↔ (k = 1 ∨ mids.length ≠ 0))) ∧
    (fuel ≠ 0 → 1 ∈ (loop env mids 1 fuel st0).1.attemptsRun) ∧
    (mids.length = 0 →
      ∀ p ∈ (loop env mids 1 fuel st0).1.dispatches, p.2 = materialize env st0.flds) := by
  by_cases hm : mids.length = 0
  · have hmids : mids = [] := List.length_eq_zero.1 hm
    subst hmids
    cases fuel with
    | zero =>
      rw [loop]
      refine ⟨?_, fun hne => absurd rfl hne, fun _ p hp => ?_⟩
      · intro k hk
        rw [hat] at hk
        simp at hk
      · rw [hdp] at hp
        simp at hp
    | succ n =>
      rw [loop]
      cases hs : stepOne env [] 1 st0 with
      | mk st1 ex? =>
        obtain ⟨hcl1, hfl1, hbd1, hat1, hrq1, hdisj⟩ :=
          stepOne_firstBuild env 1 st0 hc hrq st1 ex? hs
        cases ex? with
        | some ex =>
          refine ⟨?_, fun _ => ?_, fun _ p hp => ?_⟩
          · intro k hk
            rw [hat1, hat] at hk
            simp at hk
            subst hk
            rw [hbd1, hbd]
            simp
          · rw [hat1, hat]
            simp
          · rcases hdisj with ⟨-, hdps⟩ | ⟨-, hdps⟩
            · rw [hdps, hdp] at hp
              simp at hp
            · rw [hdps, hdp] at hp
              simp at hp
              rw [hp]
        | none =>
          obtain ⟨hcl2, hfl2, hrq2, hbd2, ⟨na, hna, hka⟩, ⟨nd, hnd, hpd⟩⟩ :=
            loop_noMids env n 2 st1 hcl1
          rcases hdisj with ⟨⟨e, he⟩, -⟩ | ⟨-, hdps⟩
          · exact absurd he (by simp)
          refine ⟨?_, fun _ => ?_, fun _ p hp => ?_⟩
          · intro k hk
            rw [hna, hat1, hat] at hk
            simp at hk
            rw [hbd2, hbd1, hbd]
            rcases hk with hk | hk
            · subst hk
              simp
            · have hk2 := hka k hk
              simp only [List.nil_append, List.mem_singleton, List.length_nil]
              constructor
              · intro h'
                exact Or.inl h'
              · rintro (h' | h')
                · exact h'
                · omega
          · rw [hna, hat1, hat]
            simp
          · rw [hnd, hdps, hdp] at hp
            simp at hp
            rcases hp with hp | hp
            · rw [hp]
            · rw [hpd p hp, hrq1]
  · obtain ⟨l, hla, hlb, hkl, hfl⟩ := loop_mids env mids hm fuel 1 st0
    refine ⟨?_, fun hne => ?_, fun hmm => absurd hmm hm⟩
    · intro k hk
      rw [hla, hat] at hk
      simp at hk
      rw [hlb, hbd]
      simp only [List.nil_append]
      constructor
      · intro _
        exact Or.inr hm
      · intro _
        exact hk
    · rw [hla, hat]
      simp only [List.nil_append]
      exact hfl hne

end ReqV1

/-- C5: in every `Send` run (req.go generation) starting from an
unmaterialized request, as `New` returns it: the raw request is built on the
first attempt; a later attempt rebuilds it if and only if at least one
middleware callback is registered; and with no middleware registered, every
dispatch reuses the request materialized from the initial fields on
attempt 1. -/
theorem C5_rebuild_rule (init : ReqV1.Init) (env : Env)
    (hc : init.client0 = none) (hr : init.reqRaw0 = none) :
    (∀ k ∈ (ReqV1.Send init env).attemptsRun,
      (k ∈ (ReqV1.Send init env).builds ↔ (k = 1 ∨ init.mids.length ≠ 0))) ∧
    (1 ≤ init.RetryTimes → 1 ∈ (ReqV1.Send init env).attemptsRun) ∧
    (init.mids.length = 0 →
      ∀ p ∈ (ReqV1.Send init env).dispatches,
        p.2 = ReqV1.materialize env init.flds) := by
  have hfresh := ReqV1.loop_fresh env init.mids init.RetryTimes.toNat
    (ReqV1.initialSt init) hc hr rfl rfl rfl
  simp only [ReqV1.Send]
  obtain ⟨hb, ha, hd, -, -, -⟩ := ReqV1.wrapUp_logs
    (ReqV1.loop env init.mids 1 init.RetryTimes.toNat (ReqV1.initialSt init)).1
    (ReqV1.loop env init.mids 1 init.RetryTimes.toNat (ReqV1.initialSt init)).2
  rw [hb, ha, hd]
  obtain ⟨h1, h2, h3⟩ := hfresh
  exact ⟨h1, fun hge => h2 (by omega), h3⟩

/-- C5 witness: a fresh request from `New` sent through an all-success
environment (applies `C5_rebuild_rule`). -/
theorem C5_witness :
    (ReqV1.New (str "x")).client0 = none ∧
    ((∀ k ∈ (ReqV1.Send (ReqV1.New (str "x")) envOk).attemptsRun,
        (k ∈ (ReqV1.Send (ReqV1.New (str "x")) envOk).builds ↔
          (k = 1 ∨ (ReqV1.New (str "x")).mids.length ≠ 0))) ∧
      (1 ≤ (ReqV1.New (str "x")).RetryTimes →
        1 ∈ (ReqV1.Send (ReqV1.New (str "x")) envOk).attemptsRun) ∧
      ((ReqV1.New (str "x")).mids.length = 0 →
        ∀ p ∈ (ReqV1.Send (ReqV1.New (str "x")) envOk).dispatches,
          p.2 = ReqV1.materialize envOk (ReqV1.New (str "x")).flds)) :=
  ⟨rfl, C5_rebuild_rule (ReqV1.New (str "x")) envOk rfl rfl⟩
